import Mathlib

/-!
Verification of the KiCad change-commit engine (`include/commit.h`) and the
footprint-list cache / background-loader code (`footprint_info_impl.cpp`)
against their natural-language specification.

Items (`EDA_ITEM*`) are modelled as natural numbers (opaque identities);
strings are lists of characters; machine integers are `Int`/`Nat` with
explicit reductions where overflow matters.
-/

namespace KiCad

/-! ## CHANGE_TYPE (commit.h lines 39-49) -/

def CHT_ADD : Nat := 1
def CHT_REMOVE : Nat := 2
def CHT_MODIFY : Nat := 4
def CHT_TYPE : Nat := 7
def CHT_DONE : Nat := 8
def CHT_FLAGS : Nat := 8

/-- The template `operator|` on CHANGE_TYPE (commit.h lines 52-56): casts both
sides to int and takes the bitwise OR. -/
def chtOr (a b : Nat) : Nat := Nat.lor a b

/-- The template `operator&` on CHANGE_TYPE (commit.h lines 59-62): casts both
sides to int and takes the bitwise AND. -/
def chtAnd (a b : Nat) : Nat := Nat.land a b

/-! ## COMMIT data model (commit.h) -/

/-- `COMMIT::COMMIT_LINE` (commit.h lines 149-154): the item pointer, the
optional copy pointer (null modelled as `none`) and the modification type. -/
structure COMMIT_LINE where
  m_item : Nat
  m_copy : Option Nat
  m_type : Nat
deriving DecidableEq, Repr

/-- The COMMIT state: `m_changedItems` (a `std::set<EDA_ITEM*>`) and
`m_changes` (a `std::vector<COMMIT_LINE>`), commit.h lines 179-180. -/
structure COMMIT where
  m_changedItems : Finset Nat
  m_changes : List COMMIT_LINE
deriving DecidableEq

/-- A freshly constructed COMMIT: both containers empty. -/
def emptyCommit : COMMIT := { m_changedItems := ∅, m_changes := [] }

/-- `COMMIT::findEntry` (declared commit.h lines 168-173): search `m_changes`
for the entry describing the change for a particular item; null (here `none`)
if there is no related entry. -/
def findEntry (c : COMMIT) (aItem : Nat) : Option COMMIT_LINE :=
  c.m_changes.find? (fun e => e.m_item == aItem)

/-- `COMMIT::clear` (commit.h lines 157-162): clears both containers. -/
def clear (c : COMMIT) : COMMIT :=
  { c with m_changedItems := ∅, m_changes := [] }

/-- Rewrite the (unique) ledger entry for `aItem` in place, used by the merge
rules that keep the record but change its type or copy. -/
def updateEntry (c : COMMIT) (aItem : Nat) (f : COMMIT_LINE → COMMIT_LINE) : COMMIT :=
  { c with m_changes := c.m_changes.map (fun e => if e.m_item == aItem then f e else e) }

/-- Modelled from the spec: the body of `COMMIT::Stage(EDA_ITEM*, CHANGE_TYPE)`
lives in `commit.cpp`, which is not among the sources (commit.h lines 126-128
only declare it).  The spec's merge table (section 4.1) fixes its behaviour:
no existing record for the item means a new record is created (with a snapshot
copy only for MODIFY); ADD then REMOVE deletes the record entirely; ADD then
MODIFY keeps the ADD record; an existing REMOVE record rejects further staging
(production behaviour: keep the REMOVE record, ignore the new change); MODIFY
then MODIFY keeps the original snapshot; MODIFY then REMOVE becomes REMOVE
with the snapshot discarded; the DONE flag of the result is the union of the
staged flags.  Combinations the spec does not list leave the ledger unchanged.
Returns the updated engine (the C++ reference return `*this`). -/
def Stage (c : COMMIT) (aItem : Nat) (aChangeType : Nat) : COMMIT :=
  let kind := Nat.land aChangeType CHT_TYPE
  let flag := Nat.land aChangeType CHT_FLAGS
  match findEntry c aItem with
  | none =>
      { m_changedItems := insert aItem c.m_changedItems,
        m_changes := c.m_changes ++
          [{ m_item := aItem,
             m_copy := if kind = CHT_MODIFY then some aItem else none,
             m_type := Nat.lor kind flag }] }
  | some ent =>
      let oldKind := Nat.land ent.m_type CHT_TYPE
      if oldKind = CHT_ADD ∧ kind = CHT_REMOVE then
        { m_changedItems := c.m_changedItems.erase aItem,
          m_changes := c.m_changes.filter (fun e => !(e.m_item == aItem)) }
      else if oldKind = CHT_REMOVE then
        c
      else if oldKind = CHT_ADD ∧ kind = CHT_MODIFY then
        updateEntry c aItem (fun e => { e with m_type := Nat.lor e.m_type flag })
      else if oldKind = CHT_MODIFY ∧ kind = CHT_MODIFY then
        updateEntry c aItem (fun e => { e with m_type := Nat.lor e.m_type flag })
      else if oldKind = CHT_MODIFY ∧ kind = CHT_REMOVE then
        updateEntry c aItem (fun e =>
          { e with m_copy := none,
                   m_type := Nat.lor CHT_REMOVE (Nat.lor flag (Nat.land e.m_type CHT_FLAGS)) })
      else
        c

/-- Modelled from the spec: `COMMIT::GetStatus` (declared commit.h lines
146-147, body in the absent commit.cpp) returns the current merged Change
Type bitmask for the item, or the no-change sentinel 0 if absent. -/
def GetStatus (c : COMMIT) (aItem : Nat) : Nat :=
  match findEntry c aItem with
  | some ent => ent.m_type
  | none => 0

/-- `COMMIT::Add` (commit.h lines 77-80): `return Stage( aItem, CHT_ADD );` -/
def Add (c : COMMIT) (aItem : Nat) : COMMIT := Stage c aItem CHT_ADD

/-- `COMMIT::Added` (commit.h lines 83-86):
`return Stage( aItem, CHT_ADD | CHT_DONE );` -/
def Added (c : COMMIT) (aItem : Nat) : COMMIT := Stage c aItem (chtOr CHT_ADD CHT_DONE)

/-- `COMMIT::Remove` (commit.h lines 89-92): `return Stage( aItem, CHT_REMOVE );` -/
def Remove (c : COMMIT) (aItem : Nat) : COMMIT := Stage c aItem CHT_REMOVE

/-- `COMMIT::Removed` (commit.h lines 95-98):
`return Stage( aItem, CHT_REMOVE | CHT_DONE );` -/
def Removed (c : COMMIT) (aItem : Nat) : COMMIT := Stage c aItem (chtOr CHT_REMOVE CHT_DONE)

/-- `COMMIT::Modify` (commit.h lines 101-105): `return Stage( aItem, CHT_MODIFY );` -/
def Modify (c : COMMIT) (aItem : Nat) : COMMIT := Stage c aItem CHT_MODIFY

/-- `COMMIT::Empty` (commit.h lines 140-143): `return m_changes.empty();` -/
def Empty (c : COMMIT) : Bool := c.m_changes.isEmpty

/-- Modelled from the spec: `Push` is pure virtual (commit.h lines 131-134);
per spec section 4.2 it walks the records in insertion order and applies each
record that does not carry the DONE flag to the document model.  This lists
the (item, type) pairs of the records Push applies as model mutations. -/
def pushMutations (c : COMMIT) : List (Nat × Nat) :=
  (c.m_changes.filter (fun e => Nat.land e.m_type CHT_DONE == 0)).map
    (fun e => (e.m_item, e.m_type))

/-- Modelled from the spec: Push emits one notification per record, in
insertion order (spec section 4.2 step 4). -/
def pushNotifications (c : COMMIT) : List (Nat × Nat) :=
  c.m_changes.map (fun e => (e.m_item, e.m_type))

/-- Modelled from the spec: Push's effect on the ledger itself is to clear it
(spec section 4.2 step 7); the model mutations and notifications it produces
are returned alongside the cleared engine. -/
def Push (c : COMMIT) : List (Nat × Nat) × List (Nat × Nat) × COMMIT :=
  (pushMutations c, pushNotifications c, clear c)

/-- Modelled from the spec: `Revert` is pure virtual (commit.h line 137); per
spec section 4.2 it restores items and clears the ledger. -/
def Revert (c : COMMIT) : COMMIT := clear c

/-- The item identities of the ordered record sequence, in order. -/
def ledgerKeys (c : COMMIT) : List Nat := c.m_changes.map (fun e => e.m_item)

/-- The Change Ledger invariant (spec section 3): at most one Change Record
per item identity, and the identity set and the record sequence are in 1:1
correspondence by item identity. -/
def ledgerInv (c : COMMIT) : Prop :=
  (ledgerKeys c).Nodup ∧ c.m_changedItems = (ledgerKeys c).toFinset

/-- Run a list of (item, changeType) staging operations from a fresh commit. -/
def runStages (ops : List (Nat × Nat)) : COMMIT :=
  ops.foldl (fun c p => Stage c p.1 p.2) emptyCommit

/-! ## Footprint list cache (footprint_info_impl.cpp part of the sources)

Strings are `List Char`; a text file is a list of lines (`List (List Char)`).
-/

/-- The opening brace character, the lead character of the escape sequences. -/
def braceChar : Char := Char.ofNat 123

/-- Modelled from the spec: `EscapeString(s, CTX_LINE)` lives in
`string_utils.cpp`, which is not among the sources.  The spec (section 6) says
only that newline-bearing text fields are escaped with a reversible line-safe
transform; modelled as a brace-led character escape: a newline becomes the
brace followed by `n`, and a literal brace is doubled so the transform stays
injective.  Every other character passes through. -/
def escapeLine : List Char → List Char
  | [] => []
  | c :: rest =>
      if c = Char.ofNat 10 then braceChar :: 'n' :: escapeLine rest
      else if c = braceChar then braceChar :: braceChar :: escapeLine rest
      else c :: escapeLine rest

/-- Modelled from the spec: `UnescapeString` (also in the absent
`string_utils.cpp`), the inverse transform: a brace-led pair decodes to the
escaped character, everything else passes through. -/
def unescapeLine : List Char → List Char
  | [] => []
  | [c] => [c]
  | c :: d :: rest =>
      if c = braceChar then (if d = 'n' then Char.ofNat 10 else d) :: unescapeLine rest
      else c :: unescapeLine (d :: rest)

/-- The decimal digit character for `d < 10`. -/
def digitChar (d : Nat) : Char := Char.ofNat (48 + d)

/-- Decimal digits of `n`, most significant first, prepended to `acc`. -/
def natToDigitsAux (n : Nat) (acc : List Char) : List Char :=
  if h : n < 10 then digitChar n :: acc
  else natToDigitsAux (n / 10) (digitChar (n % 10) :: acc)
termination_by n
decreasing_by exact Nat.div_lt_self (by omega) (by omega)

/-- The decimal rendering of a natural number, as written by
`wxString::Format("%u", ...)` in WriteCacheToFile. -/
def natDigits (n : Nat) : List Char := natToDigitsAux n []

/-- The decimal rendering of an integer, as written by
`wxString::Format("%d", ...)` / `"%lld"` in WriteCacheToFile. -/
def intToLine (i : Int) : List Char :=
  if i < 0 then '-' :: natDigits i.natAbs else natDigits i.toNat

/-- Accumulate the value of the leading run of decimal digits onto `acc`,
stopping at the first non-digit (the core of C `atoi`). -/
def atoiDigits : List Char → Nat → Nat
  | [], acc => acc
  | c :: rest, acc =>
      if c.isDigit then atoiDigits rest (acc * 10 + (c.toNat - 48)) else acc

/-- `wxAtoi` as used by ReadCacheFromFile: parse an optional sign followed by
a leading run of decimal digits; anything unparsable contributes 0. -/
def wxAtoi (l : List Char) : Int :=
  match l with
  | [] => 0
  | c :: rest =>
      if c = '-' then -(atoiDigits rest 0 : Int)
      else if c = '+' then (atoiDigits rest 0 : Int)
      else (atoiDigits (c :: rest) 0 : Int)

/-- The value of a digit string, most significant first. -/
def digitsToNat (l : List Char) : Nat :=
  l.foldl (fun a c => a * 10 + (c.toNat - 48)) 0

/-- `wxString::ToLongLong`, used on the first cache line: succeeds only when
the whole string is an optionally negated digit run; on failure the output
variable is left untouched. -/
def toLongLong (l : List Char) : Option Int :=
  match l with
  | [] => none
  | c :: rest =>
      if c = '-' then
        if rest.isEmpty then none
        else if rest.all Char.isDigit then some (-(digitsToNat rest : Int)) else none
      else if (c :: rest).all Char.isDigit then some (digitsToNat (c :: rest)) else none

/-- ReadCacheFromFile sets `m_list_timestamp` to 0, then overwrites it by
`GetFirstLine().ToLongLong(&m_list_timestamp)` without checking the result:
a failed parse leaves the 0. -/
def readTimestamp (line : List Char) : Int :=
  match toLongLong line with
  | some v => v
  | none => 0

/-- The `(unsigned) wxAtoi(...)` cast in ReadCacheFromFile: int to unsigned,
reducing modulo 2^32. -/
def toUnsigned (i : Int) : Nat := (i % (2 ^ 32)).toNat

/-- The cached fields of one `FOOTPRINT_INFO` entry, as serialised by
WriteCacheToFile / rebuilt by ReadCacheFromFile. -/
structure FOOTPRINT_INFO where
  libNickname : List Char
  name : List Char
  desc : List Char
  keywords : List Char
  orderNum : Int
  padCount : Nat
  uniquePadCount : Nat
deriving DecidableEq, Repr

/-- The 7 lines WriteCacheToFile emits per entry, in source order: library
nickname, item name, escaped description, escaped keywords, order number, pad
count, unique pad count. -/
def entryLines (fp : FOOTPRINT_INFO) : List (List Char) :=
  [fp.libNickname, fp.name, escapeLine fp.desc, escapeLine fp.keywords,
   intToLine fp.orderNum, natDigits fp.padCount, natDigits fp.uniquePadCount]

/-- `FOOTPRINT_LIST_IMPL::WriteCacheToFile` (in the sources): one timestamp
line, then for each list entry exactly 7 lines (`entryLines`). -/
def writeCacheToFile (timestamp : Int) (list : List FOOTPRINT_INFO) :
    List (List Char) :=
  intToLine timestamp :: list.flatMap entryLines

/-- Side conditions under which a cache entry survives the file round trip:
the unescaped nickname and name lines carry no embedded newline, and the pad
counts fit an `int` so the `%u` / `wxAtoi` / `(unsigned)` chain is exact. -/
def goodEntry (fp : FOOTPRINT_INFO) : Prop :=
  Char.ofNat 10 ∉ fp.libNickname ∧ Char.ofNat 10 ∉ fp.name ∧
  fp.padCount < 2 ^ 31 ∧ fp.uniquePadCount < 2 ^ 31

instance (fp : FOOTPRINT_INFO) : Decidable (goodEntry fp) := by
  unfold goodEntry
  infer_instance

/-- The entry-reading loop of `FOOTPRINT_LIST_IMPL::ReadCacheFromFile` (in the
sources): while `GetCurrentLine() + 6 < GetLineCount()` holds, seven
`GetNextLine()` calls (current line indices cur+1 .. cur+7, a missing line
reading as empty) build one entry; the loop advances the current line by 7. -/
def readLoop (lines : List (List Char)) (cur : Nat) : List FOOTPRINT_INFO :=
  if cur + 6 < lines.length then
    { libNickname := lines.getD (cur + 1) [],
      name := lines.getD (cur + 2) [],
      desc := unescapeLine (lines.getD (cur + 3) []),
      keywords := unescapeLine (lines.getD (cur + 4) []),
      orderNum := wxAtoi (lines.getD (cur + 5) []),
      padCount := toUnsigned (wxAtoi (lines.getD (cur + 6) [])),
      uniquePadCount := toUnsigned (wxAtoi (lines.getD (cur + 7) [])) }
      :: readLoop lines (cur + 7)
  else []
termination_by lines.length - cur
decreasing_by omega

/-- `FOOTPRINT_LIST_IMPL::ReadCacheFromFile` (in the sources).  `file` is
`none` when the file does not exist or cannot be opened.  `exc` models the
`catch(...)` path of the surrounding `try`: `some k` means an exception was
thrown after `k` entries had been built, so the handler resets the timestamp
to 0 and the list keeps only those `k` entries.  After the try/catch, the
sanity check resets the timestamp to 0 whenever the final list is empty. -/
def readCacheFromFile (file : Option (List (List Char))) (exc : Option Nat) :
    Int × List FOOTPRINT_INFO :=
  match file with
  | none => (0, [])
  | some lines =>
      match exc with
      | some k =>
          let lst := (readLoop lines 0).take k
          (0, lst)
      | none =>
          let ts := readTimestamp (lines.headD [])
          let lst := readLoop lines 0
          (if lst.length = 0 then 0 else ts, lst)

/-! ## Background loader (footprint_info_impl.cpp part of the sources)

The loader's thread pool is concurrency and is not embedded; what is embedded
is the state each function reads and writes and the branch structure visible
in the source.  The outcome of a load run (whether cancellation was requested,
which list and errors were collected) enters as explicit parameters.
-/

/-- The `FOOTPRINT_LIST_IMPL` fields the embedded functions touch. -/
structure FP_STATE where
  m_list_timestamp : Int
  m_cancelled : Bool
  m_errors : List (List Char)
  m_list : List FOOTPRINT_INFO
  m_queue_in : List (List Char)
  m_count_finished : Nat
deriving DecidableEq, Repr

/-- The outcome of one unit of work wrapped by `CatchErrors`: it either ran
clean, threw an `IO_ERROR`, or threw a `std::exception` (whose `what()` text
is re-wrapped as an `IO_ERROR`). -/
inductive FUNC_OUTCOME where
  | ok
  | ioError (msg : List Char)
  | stdException (msg : List Char)
deriving DecidableEq, Repr

/-- `FOOTPRINT_LIST_IMPL::CatchErrors` (in the sources): runs the function; an
`IO_ERROR` is pushed onto `m_errors` and `false` is returned; a
`std::exception` is rethrown as an `IO_ERROR` carrying `se.what()`, likewise
pushed, and `false` is returned; with no exception it returns `true`.
Returns (return value, updated error list). -/
def CatchErrors (errs : List (List Char)) (f : FUNC_OUTCOME) :
    Bool × List (List Char) :=
  match f with
  | .ok => (true, errs)
  | .ioError m => (false, errs ++ [m])
  | .stdException m => (false, errs ++ [m])

/-- `FOOTPRINT_LIST_IMPL::loader_job` (in the sources): pops nicknames from
the input queue and wraps each prefetch in `CatchErrors`; a failure does not
leave the loop, so every queued job is attempted.  The fold carries the error
list across the whole queue. -/
def loader_job (jobs : List FUNC_OUTCOME) (errs : List (List Char)) :
    List (List Char) :=
  jobs.foldl (fun e j => (CatchErrors e j).2) errs

/-- The error message of a failed outcome, `none` when the job ran clean. -/
def outcomeError (f : FUNC_OUTCOME) : Option (List Char) :=
  match f with
  | .ok => none
  | .ioError m => some m
  | .stdException m => some m

/-- `FOOTPRINT_LIST_IMPL::ReadFootprintFiles` (in the sources).  If the
timestamp generated from the library table equals the stored one, it returns
`true` at once, touching nothing.  Otherwise it runs the load (worker pool
abstracted: `cancelRequested` is whether the polling loop saw a cancellation
request, `loaded` / `loadErrors` what the workers collected), then sets
`m_list_timestamp` to 0 when cancelled and to the generated timestamp when
not, and returns `m_errors.empty()`. -/
def readFootprintFiles (st : FP_STATE) (generatedTimestamp : Int)
    (cancelRequested : Bool) (loaded : List FOOTPRINT_INFO)
    (loadErrors : List (List Char)) : Bool × FP_STATE :=
  if generatedTimestamp = st.m_list_timestamp then
    (true, st)
  else
    let st1 := { st with m_cancelled := cancelRequested,
                         m_list := loaded,
                         m_errors := loadErrors }
    let st2 :=
      if st1.m_cancelled then { st1 with m_list_timestamp := 0 }
      else { st1 with m_list_timestamp := generatedTimestamp }
    (st2.m_errors.isEmpty, st2)

/-- `FOOTPRINT_LIST_IMPL::stopWorkers` (in the sources): joins and clears the
threads, clears the input queue, zeroes the finished count, and, if a load was
cancelled in the middle, clears the timestamp so the next run reloads. -/
def stopWorkers (st : FP_STATE) : FP_STATE :=
  let st1 := { st with m_queue_in := [], m_count_finished := 0 }
  if st1.m_cancelled then { st1 with m_list_timestamp := 0 } else st1

/-! ## Helper lemmas -/

theorem loader_job_spec (jobs : List FUNC_OUTCOME) :
    ∀ errs, loader_job jobs errs = errs ++ jobs.filterMap outcomeError := by
  induction jobs with
  | nil => intro errs; simp [loader_job]
  | cons j js ih =>
    intro errs
    have h0 : loader_job (j :: js) errs = loader_job js ((CatchErrors errs j).2) := rfl
    rw [h0, ih]
    cases j <;> simp [CatchErrors, outcomeError]

/-! ## Claim theorems: loader and cache control flow -/

/-- Claim C10: when the timestamp generated from the library table equals the
stored list timestamp, ReadFootprintFiles returns true immediately and the
whole state (footprint list, error list, stored timestamp) is unchanged; no
loading work is started. -/
theorem readFootprintFiles_timestamp_hit (st : FP_STATE) (gen : Int)
    (cancelRequested : Bool) (loaded : List FOOTPRINT_INFO)
    (loadErrors : List (List Char)) (h : gen = st.m_list_timestamp) :
    readFootprintFiles st gen cancelRequested loaded loadErrors = (true, st) := by
  simp [readFootprintFiles, h]

theorem readFootprintFiles_timestamp_hit_witness :
    (5 : Int) = (FP_STATE.mk 5 false [] [] [] 0).m_list_timestamp ∧
    readFootprintFiles (FP_STATE.mk 5 false [] [] [] 0) 5 true [] [] =
      (true, FP_STATE.mk 5 false [] [] [] 0) :=
  ⟨rfl, readFootprintFiles_timestamp_hit (FP_STATE.mk 5 false [] [] [] 0) 5 true [] [] rfl⟩

/-- Claim C8: in a load run that actually starts (timestamps differ), if
cancellation is requested the stored timestamp is reset to 0, so the
known-incomplete result set is never accepted as a valid cache; when not
cancelled the freshly generated timestamp is stored.  stopWorkers likewise
resets the timestamp to 0 whenever the cancelled flag is set. -/
theorem cancellation_resets_timestamp (st : FP_STATE) (gen : Int)
    (loaded : List FOOTPRINT_INFO) (loadErrors : List (List Char))
    (h : gen ≠ st.m_list_timestamp) :
    ((readFootprintFiles st gen true loaded loadErrors).2.m_list_timestamp = 0 ∧
     (readFootprintFiles st gen false loaded loadErrors).2.m_list_timestamp = gen) ∧
    (∀ s : FP_STATE, s.m_cancelled = true → (stopWorkers s).m_list_timestamp = 0) := by
  refine ⟨⟨?_, ?_⟩, ?_⟩
  · simp [readFootprintFiles, h]
  · simp [readFootprintFiles, h]
  · intro s hs
    simp [stopWorkers, hs]

theorem cancellation_resets_timestamp_witness :
    (17 : Int) ≠ (FP_STATE.mk 5 false [] [] [] 0).m_list_timestamp ∧
    (FP_STATE.mk 3 true [] [] [] 0).m_cancelled = true ∧
    ((readFootprintFiles (FP_STATE.mk 5 false [] [] [] 0) 17 true [] []).2.m_list_timestamp = 0 ∧
     (readFootprintFiles (FP_STATE.mk 5 false [] [] [] 0) 17 false [] []).2.m_list_timestamp = 17) ∧
    (stopWorkers (FP_STATE.mk 3 true [] [] [] 0)).m_list_timestamp = 0 := by
  refine ⟨by decide, rfl, ?_, ?_⟩
  · exact (cancellation_resets_timestamp (FP_STATE.mk 5 false [] [] [] 0) 17 [] []
      (by decide)).1
  · exact (cancellation_resets_timestamp (FP_STATE.mk 5 false [] [] [] 0) 17 [] []
      (by decide)).2 (FP_STATE.mk 3 true [] [] [] 0) rfl

/-- Claim C9: CatchErrors converts an IO_ERROR or a std::exception raised by
the wrapped function into one entry appended to the error list and returns
false (true and an unchanged list when no exception); the worker loop keeps
going, so running a whole job queue collects exactly the failure messages in
order; and ReadFootprintFiles reports "completed with errors" by returning
whether the error list is empty. -/
theorem failure_collected (errs : List (List Char)) :
    CatchErrors errs FUNC_OUTCOME.ok = (true, errs) ∧
    (∀ m, CatchErrors errs (FUNC_OUTCOME.ioError m) = (false, errs ++ [m])) ∧
    (∀ m, CatchErrors errs (FUNC_OUTCOME.stdException m) = (false, errs ++ [m])) ∧
    (∀ jobs : List FUNC_OUTCOME,
        loader_job jobs errs = errs ++ jobs.filterMap outcomeError) ∧
    (∀ (st : FP_STATE) (gen : Int) (cancelRequested : Bool)
        (loaded : List FOOTPRINT_INFO) (loadErrors : List (List Char)),
        gen ≠ st.m_list_timestamp →
        (readFootprintFiles st gen cancelRequested loaded loadErrors).1 =
          loadErrors.isEmpty) := by
  refine ⟨rfl, fun m => rfl, fun m => rfl, fun jobs => loader_job_spec jobs errs, ?_⟩
  intro st gen cancelRequested loaded loadErrors h
  cases cancelRequested <;> simp [readFootprintFiles, h]

theorem failure_collected_witness :
    loader_job [FUNC_OUTCOME.ok, FUNC_OUTCOME.ioError ['e'], FUNC_OUTCOME.ok,
        FUNC_OUTCOME.stdException ['f']] [] =
      [] ++ [FUNC_OUTCOME.ok, FUNC_OUTCOME.ioError ['e'], FUNC_OUTCOME.ok,
        FUNC_OUTCOME.stdException ['f']].filterMap outcomeError ∧
    (17 : Int) ≠ (FP_STATE.mk 5 false [] [] [] 0).m_list_timestamp ∧
    (readFootprintFiles (FP_STATE.mk 5 false [] [] [] 0) 17 false []
        [['e'], ['f']]).1 = [['e'], ['f']].isEmpty := by
  refine ⟨(failure_collected []).2.2.2.1 _, by decide, ?_⟩
  have h := (failure_collected []).2.2.2.2 (FP_STATE.mk 5 false [] [] [] 0)
    17 false [] [['e'], ['f']] (by decide)
  simpa using h

/-- Claim C6: ReadCacheFromFile resets the stored timestamp to 0 in exactly
these cases: the file does not exist or cannot be opened, an exception is
raised during parsing, or the resulting list has size 0; otherwise the
timestamp parsed from the first line is kept. -/
theorem readCache_invalidation :
    (∀ exc, readCacheFromFile none exc = (0, [])) ∧
    (∀ (lines : List (List Char)) (k : Nat),
        (readCacheFromFile (some lines) (some k)).1 = 0) ∧
    (∀ lines : List (List Char), (readCacheFromFile (some lines) none).2 = [] →
        (readCacheFromFile (some lines) none).1 = 0) ∧
    (∀ lines : List (List Char), (readCacheFromFile (some lines) none).2 ≠ [] →
        (readCacheFromFile (some lines) none).1 = readTimestamp (lines.headD [])) := by
  refine ⟨fun exc => rfl, fun lines k => rfl, ?_, ?_⟩
  · intro lines h
    simp only [readCacheFromFile] at h ⊢
    simp [List.length_eq_zero.mpr h]
  · intro lines h
    simp only [readCacheFromFile] at h ⊢
    rw [if_neg]
    simpa [List.length_eq_zero] using h

theorem readCache_invalidation_witness :
    (readCacheFromFile (some [['7'], ['l'], ['n'], ['d'], ['k'], ['3'], ['7'], ['2']])
        none).2 ≠ [] ∧
    (readCacheFromFile (some [['7'], ['l'], ['n'], ['d'], ['k'], ['3'], ['7'], ['2']])
          none).1 =
      readTimestamp ([['7'], ['l'], ['n'], ['d'], ['k'], ['3'], ['7'], ['2']].headD []) ∧
    (readCacheFromFile (some [['7']]) none).2 = [] ∧
    (readCacheFromFile (some [['7']]) none).1 = 0 := by
  have h1 : (readCacheFromFile
      (some [['7'], ['l'], ['n'], ['d'], ['k'], ['3'], ['7'], ['2']]) none).2 ≠ [] := by
    simp only [readCacheFromFile]
    rw [readLoop]
    norm_num
    exact List.cons_ne_nil _ _
  have h2 : (readCacheFromFile (some [['7']]) none).2 = [] := by
    simp only [readCacheFromFile]
    rw [readLoop]
    norm_num
  exact ⟨h1, readCache_invalidation.2.2.2 _ h1, h2, readCache_invalidation.2.2.1 _ h2⟩

/-! ## Escape round trip (claim C5) -/

theorem unescapeLine_cons_of_ne (c : Char) (l : List Char) (h : ¬ c = braceChar) :
    unescapeLine (c :: l) = c :: unescapeLine l := by
  cases l with
  | nil => rfl
  | cons d rest => simp [unescapeLine, h]

theorem unescapeLine_brace_pair (d : Char) (l : List Char) :
    unescapeLine (braceChar :: d :: l) =
      (if d = 'n' then Char.ofNat 10 else d) :: unescapeLine l := by
  simp [unescapeLine]

theorem escapeLine_newline (rest : List Char) :
    escapeLine (Char.ofNat 10 :: rest) = braceChar :: 'n' :: escapeLine rest := by
  rw [escapeLine, if_pos rfl]

theorem escapeLine_brace (rest : List Char) :
    escapeLine (braceChar :: rest) = braceChar :: braceChar :: escapeLine rest := by
  rw [escapeLine, if_neg (by decide), if_pos rfl]

theorem escapeLine_other (c : Char) (rest : List Char) (h1 : ¬ c = Char.ofNat 10)
    (h2 : ¬ c = braceChar) : escapeLine (c :: rest) = c :: escapeLine rest := by
  rw [escapeLine, if_neg h1, if_neg h2]

theorem unescape_escape (s : List Char) : unescapeLine (escapeLine s) = s := by
  induction s with
  | nil => rfl
  | cons c rest ih =>
    by_cases h1 : c = Char.ofNat 10
    · subst h1
      rw [escapeLine_newline, unescapeLine_brace_pair, if_pos rfl, ih]
    · by_cases h2 : c = braceChar
      · subst h2
        rw [escapeLine_brace, unescapeLine_brace_pair, if_neg (by decide), ih]
      · rw [escapeLine_other c rest h1 h2, unescapeLine_cons_of_ne c _ h2, ih]

theorem escape_no_newline (s : List Char) : Char.ofNat 10 ∉ escapeLine s := by
  induction s with
  | nil => simp [escapeLine]
  | cons c rest ih =>
    by_cases h1 : c = Char.ofNat 10
    · subst h1
      rw [escapeLine_newline]
      simp only [List.mem_cons]
      push_neg
      exact ⟨by decide, by decide, ih⟩
    · by_cases h2 : c = braceChar
      · subst h2
        rw [escapeLine_brace]
        simp only [List.mem_cons]
        push_neg
        exact ⟨by decide, by decide, ih⟩
      · rw [escapeLine_other c rest h1 h2]
        simp only [List.mem_cons]
        push_neg
        exact ⟨fun hh => h1 hh.symm, ih⟩

/-- Claim C5: the cache-file escaping is a reversible round trip — for every
string, including newline-bearing ones, unescaping the CTX_LINE-escaped form
yields the original string — and the escaped form contains no embedded
newline, so the 7-lines-per-entry layout is preserved. -/
theorem escape_roundtrip (s : List Char) :
    unescapeLine (escapeLine s) = s ∧ Char.ofNat 10 ∉ escapeLine s :=
  ⟨unescape_escape s, escape_no_newline s⟩

/-! ## Decimal rendering and parsing round trip -/

theorem digitChar_isDigit (d : Nat) (h : d < 10) : (digitChar d).isDigit = true := by
  interval_cases d <;> decide

theorem digitChar_toNat (d : Nat) (h : d < 10) : (digitChar d).toNat = 48 + d := by
  interval_cases d <;> decide

theorem isDigit_ne_minus (c : Char) (h : c.isDigit = true) : ¬ c = '-' := by
  intro hc; rw [hc] at h; exact absurd h (by decide)

theorem isDigit_ne_plus (c : Char) (h : c.isDigit = true) : ¬ c = '+' := by
  intro hc; rw [hc] at h; exact absurd h (by decide)

theorem isDigit_ne_newline (c : Char) (h : c.isDigit = true) : ¬ c = Char.ofNat 10 := by
  intro hc; rw [hc] at h; exact absurd h (by decide)

theorem natToDigitsAux_small (n : Nat) (acc : List Char) (h : n < 10) :
    natToDigitsAux n acc = digitChar n :: acc := by
  rw [natToDigitsAux, dif_pos h]

theorem natToDigitsAux_large (n : Nat) (acc : List Char) (h : ¬ n < 10) :
    natToDigitsAux n acc = natToDigitsAux (n / 10) (digitChar (n % 10) :: acc) := by
  rw [natToDigitsAux]
  rw [dif_neg h]

theorem natToDigitsAux_append (n : Nat) :
    ∀ acc, natToDigitsAux n acc = natDigits n ++ acc := by
  induction n using Nat.strong_induction_on with
  | _ n ih =>
    intro acc
    by_cases h : n < 10
    · rw [natToDigitsAux_small n acc h, natDigits, natToDigitsAux_small n [] h]
      rfl
    · have hlt : n / 10 < n := Nat.div_lt_self (by omega) (by omega)
      rw [natToDigitsAux_large n acc h, natDigits, natToDigitsAux_large n [] h]
      rw [ih _ hlt, ih _ hlt]
      simp

theorem natDigits_small (n : Nat) (h : n < 10) : natDigits n = [digitChar n] := by
  rw [natDigits, natToDigitsAux_small n [] h]

theorem natDigits_large (n : Nat) (h : ¬ n < 10) :
    natDigits n = natDigits (n / 10) ++ [digitChar (n % 10)] := by
  rw [natDigits, natToDigitsAux_large n [] h, natToDigitsAux_append]

theorem natDigits_all_digits (n : Nat) :
    ∀ c ∈ natDigits n, c.isDigit = true := by
  induction n using Nat.strong_induction_on with
  | _ n ih =>
    intro c hc
    by_cases h : n < 10
    · rw [natDigits_small n h] at hc
      simp at hc
      rw [hc]
      exact digitChar_isDigit n h
    · rw [natDigits_large n h] at hc
      rcases List.mem_append.mp hc with h1 | h1
      · exact ih _ (Nat.div_lt_self (by omega) (by omega)) c h1
      · simp at h1
        rw [h1]
        exact digitChar_isDigit _ (Nat.mod_lt _ (by omega))

theorem natDigits_ne_nil (n : Nat) : natDigits n ≠ [] := by
  by_cases h : n < 10
  · rw [natDigits_small n h]; simp
  · rw [natDigits_large n h]; simp

theorem digitsToNat_append_digit (l : List Char) (d : Char) :
    digitsToNat (l ++ [d]) = digitsToNat l * 10 + (d.toNat - 48) := by
  simp [digitsToNat, List.foldl_append]

theorem digitsToNat_natDigits (n : Nat) : digitsToNat (natDigits n) = n := by
  induction n using Nat.strong_induction_on with
  | _ n ih =>
    by_cases h : n < 10
    · rw [natDigits_small n h]
      simp [digitsToNat, digitChar_toNat n h]
    · rw [natDigits_large n h, digitsToNat_append_digit]
      rw [ih _ (Nat.div_lt_self (by omega) (by omega))]
      rw [digitChar_toNat _ (Nat.mod_lt _ (by omega))]
      omega

theorem atoiDigits_eq_foldl (l : List Char) :
    ∀ a, (∀ c ∈ l, c.isDigit = true) →
      atoiDigits l a = l.foldl (fun x c => x * 10 + (c.toNat - 48)) a := by
  induction l with
  | nil => intro a _; rfl
  | cons c rest ih =>
    intro a h
    have hc : c.isDigit = true := h c (by simp)
    rw [atoiDigits, if_pos hc, List.foldl_cons]
    exact ih _ (fun x hx => h x (by simp [hx]))

theorem atoiDigits_natDigits (n : Nat) : atoiDigits (natDigits n) 0 = n := by
  rw [atoiDigits_eq_foldl _ 0 (natDigits_all_digits n)]
  exact digitsToNat_natDigits n

theorem natDigits_head_digit (n : Nat) :
    ∃ c rest, natDigits n = c :: rest ∧ c.isDigit = true := by
  cases e : natDigits n with
  | nil => exact absurd e (natDigits_ne_nil n)
  | cons c rest =>
    refine ⟨c, rest, rfl, natDigits_all_digits n c ?_⟩
    rw [e]
    simp

theorem wxAtoi_natDigits (n : Nat) : wxAtoi (natDigits n) = (n : Int) := by
  obtain ⟨c, rest, e, hc⟩ := natDigits_head_digit n
  rw [e, wxAtoi, if_neg (isDigit_ne_minus c hc), if_neg (isDigit_ne_plus c hc)]
  rw [← e, atoiDigits_natDigits]

theorem wxAtoi_intToLine (i : Int) : wxAtoi (intToLine i) = i := by
  by_cases h : i < 0
  · rw [intToLine, if_pos h, wxAtoi, if_pos rfl, atoiDigits_natDigits]
    omega
  · rw [intToLine, if_neg h, wxAtoi_natDigits]
    omega

theorem natDigits_all_digits_bool (n : Nat) :
    (natDigits n).all Char.isDigit = true := by
  rw [List.all_eq_true]
  exact natDigits_all_digits n

theorem toLongLong_natDigits (n : Nat) : toLongLong (natDigits n) = some (n : Int) := by
  obtain ⟨c, rest, e, hc⟩ := natDigits_head_digit n
  rw [e, toLongLong, if_neg (isDigit_ne_minus c hc)]
  rw [if_pos (by rw [← e]; exact natDigits_all_digits_bool n)]
  rw [← e]
  rw [show digitsToNat (natDigits n) = n from digitsToNat_natDigits n]

theorem toLongLong_intToLine (i : Int) : toLongLong (intToLine i) = some i := by
  by_cases h : i < 0
  · rw [intToLine, if_pos h, toLongLong, if_pos rfl]
    rw [if_neg (by simp [natDigits_ne_nil])]
    rw [if_pos (natDigits_all_digits_bool _), digitsToNat_natDigits]
    congr 1
    omega
  · rw [intToLine, if_neg h, toLongLong_natDigits]
    congr 1
    omega

theorem natDigits_no_newline (n : Nat) : Char.ofNat 10 ∉ natDigits n := by
  intro hmem
  exact absurd rfl (isDigit_ne_newline _ (natDigits_all_digits n _ hmem))

theorem intToLine_no_newline (i : Int) : Char.ofNat 10 ∉ intToLine i := by
  by_cases h : i < 0
  · rw [intToLine, if_pos h]
    intro hmem
    rcases List.mem_cons.mp hmem with h1 | h1
    · exact absurd h1.symm (by decide)
    · exact natDigits_no_newline _ h1
  · rw [intToLine, if_neg h]
    exact natDigits_no_newline _

/-! ## Cache file layout and read-back (claim C7) -/

theorem readLoop_stop (lines : List (List Char)) (cur : Nat)
    (h : ¬ cur + 6 < lines.length) : readLoop lines cur = [] := by
  rw [readLoop, if_neg h]

theorem readLoop_step (lines : List (List Char)) (cur : Nat)
    (h : cur + 6 < lines.length) :
    readLoop lines cur =
      { libNickname := lines.getD (cur + 1) [],
        name := lines.getD (cur + 2) [],
        desc := unescapeLine (lines.getD (cur + 3) []),
        keywords := unescapeLine (lines.getD (cur + 4) []),
        orderNum := wxAtoi (lines.getD (cur + 5) []),
        padCount := toUnsigned (wxAtoi (lines.getD (cur + 6) [])),
        uniquePadCount := toUnsigned (wxAtoi (lines.getD (cur + 7) [])) }
        :: readLoop lines (cur + 7) := by
  rw [readLoop]
  rw [if_pos h]

theorem getD_drop (lines : List (List Char)) (cur k : Nat) :
    (lines.drop cur).getD k [] = lines.getD (cur + k) [] := by
  simp [List.getD_eq_getElem?_getD, List.getElem?_drop]

theorem readLoop_as_drop_aux (m : Nat) : ∀ (lines : List (List Char)) (cur : Nat),
    lines.length - cur ≤ m → readLoop lines cur = readLoop (lines.drop cur) 0 := by
  induction m with
  | zero =>
    intro lines cur h
    rw [readLoop_stop lines cur (by omega)]
    rw [readLoop_stop (lines.drop cur) 0 (by simp [List.length_drop]; omega)]
  | succ m ih =>
    intro lines cur h
    by_cases hc : cur + 6 < lines.length
    · have hc2 : 0 + 6 < (lines.drop cur).length := by
        simp [List.length_drop]; omega
      rw [readLoop_step lines cur hc, readLoop_step (lines.drop cur) 0 hc2]
      congr 1
      · simp [getD_drop]
      · rw [ih lines (cur + 7) (by omega)]
        rw [ih (lines.drop cur) (0 + 7) (by simp [List.length_drop]; omega)]
        rw [List.drop_drop]
    · rw [readLoop_stop lines cur hc]
      rw [readLoop_stop (lines.drop cur) 0 (by simp [List.length_drop]; omega)]

theorem readLoop_as_drop (lines : List (List Char)) (cur : Nat) :
    readLoop lines cur = readLoop (lines.drop cur) 0 :=
  readLoop_as_drop_aux (lines.length - cur) lines cur (Nat.le_refl _)

theorem toUnsigned_coe (n : Nat) (h : n < 2 ^ 32) : toUnsigned (n : Int) = n := by
  rw [toUnsigned, Int.emod_eq_of_lt (by omega) (by push_cast; omega)]
  simp

theorem readLoop_entries (lst : List FOOTPRINT_INFO) :
    ∀ junk : List Char, (∀ fp ∈ lst, goodEntry fp) →
      readLoop (junk :: lst.flatMap entryLines) 0 = lst := by
  induction lst with
  | nil =>
    intro junk _
    exact readLoop_stop _ _ (by simp)
  | cons fp rest ih =>
    intro junk h
    have hfp : goodEntry fp := h fp (by simp)
    have hrest : ∀ g ∈ rest, goodEntry g := fun g hg => h g (by simp [hg])
    have hflat : (fp :: rest).flatMap entryLines =
        fp.libNickname :: fp.name :: escapeLine fp.desc :: escapeLine fp.keywords ::
        intToLine fp.orderNum :: natDigits fp.padCount :: natDigits fp.uniquePadCount ::
        rest.flatMap entryLines := by
      simp [entryLines]
    rw [hflat]
    rw [readLoop_step _ 0 (by simp)]
    rw [readLoop_as_drop _ (0 + 7)]
    have hdrop : (junk :: fp.libNickname :: fp.name :: escapeLine fp.desc ::
        escapeLine fp.keywords :: intToLine fp.orderNum :: natDigits fp.padCount ::
        natDigits fp.uniquePadCount :: rest.flatMap entryLines).drop (0 + 7) =
        natDigits fp.uniquePadCount :: rest.flatMap entryLines := rfl
    rw [hdrop, ih _ hrest]
    congr 1
    unfold goodEntry at hfp
    obtain ⟨hn1, hn2, hp6, hp7⟩ := hfp
    norm_num [List.getD]
    rw [unescape_escape, unescape_escape, wxAtoi_intToLine, wxAtoi_natDigits,
      wxAtoi_natDigits, toUnsigned_coe _ (by omega), toUnsigned_coe _ (by omega)]

theorem flatMap_entryLines_length (lst : List FOOTPRINT_INFO) :
    (lst.flatMap entryLines).length = 7 * lst.length := by
  induction lst with
  | nil => simp
  | cons fp rest ih =>
    simp [entryLines, ih]
    omega

/-- Claim C7: WriteCacheToFile writes one timestamp line followed by exactly 7
lines per entry in the order library nickname, item name, escaped
description, escaped keywords, order number, pad count, unique pad count (all
single lines, i.e. free of embedded newlines), and ReadCacheFromFile consumes
entries in the same 7-line order: reading the written file back recovers the
exact entry list (with the timestamp kept whenever the list is nonempty). -/
theorem cache_layout_roundtrip (ts : Int) (lst : List FOOTPRINT_INFO)
    (h : ∀ fp ∈ lst, goodEntry fp) :
    (writeCacheToFile ts lst).length = 1 + 7 * lst.length ∧
    (∀ line ∈ writeCacheToFile ts lst, Char.ofNat 10 ∉ line) ∧
    readCacheFromFile (some (writeCacheToFile ts lst)) none =
      (if lst.length = 0 then 0 else ts, lst) := by
  refine ⟨?_, ?_, ?_⟩
  · rw [writeCacheToFile]
    simp only [List.length_cons]
    rw [flatMap_entryLines_length]
    omega
  · intro line hline
    rcases List.mem_cons.mp hline with h1 | h1
    · rw [h1]; exact intToLine_no_newline ts
    · rcases List.mem_flatMap.mp h1 with ⟨fp, hfp, hmem⟩
      have hg := h fp hfp
      have hn1 : Char.ofNat 10 ∉ fp.libNickname := hg.1
      have hn2 : Char.ofNat 10 ∉ fp.name := hg.2.1
      simp only [entryLines, List.mem_cons, List.not_mem_nil, or_false] at hmem
      rcases hmem with h2 | h2 | h2 | h2 | h2 | h2 | h2
      · rw [h2]; exact hn1
      · rw [h2]; exact hn2
      · rw [h2]; exact escape_no_newline _
      · rw [h2]; exact escape_no_newline _
      · rw [h2]; exact intToLine_no_newline _
      · rw [h2]; exact natDigits_no_newline _
      · rw [h2]; exact natDigits_no_newline _
  · have hread : readLoop (writeCacheToFile ts lst) 0 = lst := by
      rw [writeCacheToFile]
      exact readLoop_entries lst (intToLine ts) h
    simp only [readCacheFromFile, hread]
    have hts : readTimestamp ((writeCacheToFile ts lst).headD []) = ts := by
      rw [writeCacheToFile]
      simp only [List.headD_cons]
      rw [readTimestamp, toLongLong_intToLine]
    rw [hts]

theorem cache_layout_roundtrip_witness :
    (∀ fp ∈ [FOOTPRINT_INFO.mk ['l'] ['n'] ['d', Char.ofNat 10] ['k'] 3 7 2],
        goodEntry fp) ∧
    ((writeCacheToFile 9 [FOOTPRINT_INFO.mk ['l'] ['n'] ['d', Char.ofNat 10] ['k'] 3 7 2]).length =
        1 + 7 * 1 ∧
      (∀ line ∈ writeCacheToFile 9 [FOOTPRINT_INFO.mk ['l'] ['n'] ['d', Char.ofNat 10] ['k'] 3 7 2],
          Char.ofNat 10 ∉ line) ∧
      readCacheFromFile
          (some (writeCacheToFile 9 [FOOTPRINT_INFO.mk ['l'] ['n'] ['d', Char.ofNat 10] ['k'] 3 7 2]))
          none =
        (if ([FOOTPRINT_INFO.mk ['l'] ['n'] ['d', Char.ofNat 10] ['k'] 3 7 2] :
            List FOOTPRINT_INFO).length = 0 then 0 else 9,
          [FOOTPRINT_INFO.mk ['l'] ['n'] ['d', Char.ofNat 10] ['k'] 3 7 2])) := by
  constructor
  · decide
  · exact cache_layout_roundtrip 9 _ (by decide)

/-! ## Commit engine: ledger lemmas -/

theorem findEntry_none_iff (c : COMMIT) (i : Nat) :
    findEntry c i = none ↔ i ∉ ledgerKeys c := by
  rw [findEntry, List.find?_eq_none, ledgerKeys]
  simp

theorem stage_fresh (c : COMMIT) (i t : Nat) (h : findEntry c i = none) :
    Stage c i t =
      { m_changedItems := insert i c.m_changedItems,
        m_changes := c.m_changes ++
          [{ m_item := i,
             m_copy := if Nat.land t CHT_TYPE = CHT_MODIFY then some i else none,
             m_type := Nat.lor (Nat.land t CHT_TYPE) (Nat.land t CHT_FLAGS) }] } := by
  rw [Stage, h]

theorem stage_add_fresh (c : COMMIT) (i : Nat) (h : findEntry c i = none) :
    Stage c i CHT_ADD =
      { m_changedItems := insert i c.m_changedItems,
        m_changes := c.m_changes ++
          [{ m_item := i, m_copy := none, m_type := CHT_ADD }] } := by
  rw [stage_fresh c i CHT_ADD h]
  rw [show Nat.land CHT_ADD CHT_TYPE = CHT_ADD from by decide]
  rw [show Nat.land CHT_ADD CHT_FLAGS = 0 from by decide]
  rw [if_neg (by decide : ¬ CHT_ADD = CHT_MODIFY)]
  rw [show Nat.lor CHT_ADD 0 = CHT_ADD from by decide]

theorem stage_add_remove (c : COMMIT) (i : Nat) (ent : COMMIT_LINE)
    (h : findEntry c i = some ent)
    (hadd : Nat.land ent.m_type CHT_TYPE = CHT_ADD) :
    Stage c i CHT_REMOVE =
      { m_changedItems := c.m_changedItems.erase i,
        m_changes := c.m_changes.filter (fun e => !(e.m_item == i)) } := by
  rw [Stage, h]
  simp only []
  rw [if_pos ⟨hadd, by decide⟩]

theorem find?_filter_of_imp (l : List COMMIT_LINE) (p q : COMMIT_LINE → Bool)
    (h : ∀ e, p e = true → q e = true) : (l.filter q).find? p = l.find? p := by
  induction l with
  | nil => rfl
  | cons e l ih =>
    by_cases hq : q e = true
    · rw [List.filter_cons_of_pos hq]
      by_cases hp : p e = true
      · rw [List.find?_cons_of_pos _ hp, List.find?_cons_of_pos _ hp]
      · rw [List.find?_cons_of_neg _ hp, List.find?_cons_of_neg _ hp, ih]
    · rw [List.filter_cons_of_neg hq, ih]
      have hp : ¬ p e = true := fun hpe => hq (h e hpe)
      rw [List.find?_cons_of_neg _ hp]

theorem findEntry_filter_other (c : COMMIT) (i j : Nat) (hij : ¬ i = j) :
    (c.m_changes.filter (fun e => !(e.m_item == j))).find? (fun e => e.m_item == i) =
      findEntry c i := by
  rw [findEntry]
  apply find?_filter_of_imp
  intro e hp
  have hkey : e.m_item = i := by simpa using hp
  simpa [hkey] using hij

theorem findEntry_update_other (c : COMMIT) (i j : Nat) (f : COMMIT_LINE → COMMIT_LINE)
    (hf : ∀ e, (f e).m_item = e.m_item) (hij : ¬ i = j) :
    findEntry (updateEntry c j f) i = findEntry c i := by
  rw [findEntry, updateEntry]
  simp only []
  rw [List.find?_map]
  have hpg : ((fun e : COMMIT_LINE => e.m_item == i) ∘
      (fun e => if e.m_item == j then f e else e)) =
      (fun e : COMMIT_LINE => e.m_item == i) := by
    funext e
    by_cases hk : (e.m_item == j) = true
    · simp [Function.comp, hk, hf]
    · simp [Function.comp, hk]
  rw [hpg]
  cases he : c.m_changes.find? (fun e => e.m_item == i) with
  | none => rw [findEntry, he]; rfl
  | some e =>
    have hp := List.find?_some he
    have hkey : e.m_item = i := by simpa using hp
    rw [findEntry, he]
    simp only [Option.map_some']
    have hj : (e.m_item == j) = false := by simpa [hkey] using hij
    rw [hj]
    simp

theorem findEntry_stage_other (c : COMMIT) (i j t : Nat) (hij : ¬ i = j) :
    findEntry (Stage c j t) i = findEntry c i := by
  cases h : findEntry c j with
  | none =>
    rw [Stage, h]
    simp only []
    rw [findEntry]
    simp only []
    rw [List.find?_append]
    have h0 : c.m_changes.find? (fun e => e.m_item == i) = findEntry c i := rfl
    have h1 : List.find? (fun e => e.m_item == i)
        [({ m_item := j,
            m_copy := if Nat.land t CHT_TYPE = CHT_MODIFY then some j else none,
            m_type := Nat.lor (Nat.land t CHT_TYPE) (Nat.land t CHT_FLAGS) } :
          COMMIT_LINE)] = none := by
      rw [List.find?_eq_none]
      intro x hx
      simp at hx
      simpa [hx] using fun hji => hij hji.symm
    rw [h0, h1]
    cases findEntry c i <;> rfl
  | some ent =>
    rw [Stage, h]
    simp only []
    split_ifs with h1 h2 h3 h4 h5
    · rw [findEntry]
      simp only []
      exact findEntry_filter_other c i j hij
    · rfl
    · exact findEntry_update_other c i j _ (fun e => rfl) hij
    · exact findEntry_update_other c i j _ (fun e => rfl) hij
    · exact findEntry_update_other c i j _ (fun e => rfl) hij
    · rfl

theorem findEntry_runStages_other (ops : List (Nat × Nat)) :
    ∀ (c : COMMIT) (i : Nat), (∀ p ∈ ops, p.1 ≠ i) →
      findEntry (ops.foldl (fun c p => Stage c p.1 p.2) c) i = findEntry c i := by
  induction ops with
  | nil => intro c i _; rfl
  | cons p ops ih =>
    intro c i h
    rw [List.foldl_cons]
    have hrest := ih (Stage c p.1 p.2) i (fun q hq => h q (by simp [hq]))
    rw [hrest]
    exact findEntry_stage_other c i p.1 p.2 (fun he => h p (by simp) he.symm)

/-! ## Commit engine: the ledger invariant -/

theorem inv_empty : ledgerInv emptyCommit :=
  ⟨List.nodup_nil, by simp [emptyCommit, ledgerKeys]⟩

theorem inv_append (c : COMMIT) (i : Nat) (cp : Option Nat) (ty : Nat)
    (hinv : ledgerInv c) (h : findEntry c i = none) :
    ledgerInv { m_changedItems := insert i c.m_changedItems,
                m_changes := c.m_changes ++
                  [{ m_item := i, m_copy := cp, m_type := ty }] } := by
  have hni : i ∉ ledgerKeys c := (findEntry_none_iff c i).mp h
  have hkeys : ledgerKeys { m_changedItems := insert i c.m_changedItems,
                            m_changes := c.m_changes ++
                              [{ m_item := i, m_copy := cp, m_type := ty }] } =
      ledgerKeys c ++ [i] := by
    simp [ledgerKeys]
  refine ⟨?_, ?_⟩
  · rw [hkeys, List.nodup_append]
    refine ⟨hinv.1, List.nodup_singleton i, ?_⟩
    intro a ha hb
    rw [List.mem_singleton] at hb
    exact hni (hb ▸ ha)
  · show insert i c.m_changedItems = _
    rw [hkeys, hinv.2]
    ext a
    simp [or_comm]

theorem keys_filter_ne (l : List COMMIT_LINE) (i : Nat) :
    (l.filter (fun e => !(e.m_item == i))).map (fun e => e.m_item) =
      (l.map (fun e => e.m_item)).filter (fun k => !(k == i)) := by
  induction l with
  | nil => rfl
  | cons e l ih =>
    by_cases hk : (e.m_item == i) = true
    · rw [List.filter_cons_of_neg (by simp [hk]), List.map_cons,
        List.filter_cons_of_neg (by simp [hk]), ih]
    · rw [List.filter_cons_of_pos (by simp [hk]), List.map_cons, List.map_cons,
        List.filter_cons_of_pos (by simp [hk]), ih]

theorem inv_filter (c : COMMIT) (i : Nat) (hinv : ledgerInv c) :
    ledgerInv { m_changedItems := c.m_changedItems.erase i,
                m_changes := c.m_changes.filter (fun e => !(e.m_item == i)) } := by
  have hkeys : ledgerKeys { m_changedItems := c.m_changedItems.erase i,
                            m_changes := c.m_changes.filter
                              (fun e => !(e.m_item == i)) } =
      (ledgerKeys c).filter (fun k => !(k == i)) := by
    rw [ledgerKeys]
    exact keys_filter_ne c.m_changes i
  refine ⟨?_, ?_⟩
  · rw [hkeys]
    exact List.Nodup.filter _ hinv.1
  · show c.m_changedItems.erase i = _
    rw [hkeys, hinv.2]
    ext a
    simp [and_comm]

theorem inv_update (c : COMMIT) (i : Nat) (f : COMMIT_LINE → COMMIT_LINE)
    (hf : ∀ e, (f e).m_item = e.m_item) (hinv : ledgerInv c) :
    ledgerInv (updateEntry c i f) := by
  have hkeys : ledgerKeys (updateEntry c i f) = ledgerKeys c := by
    rw [ledgerKeys, updateEntry]
    simp only [List.map_map]
    have hcomp : ((fun e : COMMIT_LINE => e.m_item) ∘
        (fun e => if e.m_item == i then f e else e)) =
        (fun e : COMMIT_LINE => e.m_item) := by
      funext e
      by_cases hk : (e.m_item == i) = true
      · simp [Function.comp, hk, hf]
      · simp [Function.comp, hk]
    rw [hcomp]
    rfl
  refine ⟨?_, ?_⟩
  · rw [hkeys]
    exact hinv.1
  · show c.m_changedItems = _
    rw [hkeys]
    exact hinv.2

theorem stage_preserves_inv (c : COMMIT) (i t : Nat) (hinv : ledgerInv c) :
    ledgerInv (Stage c i t) := by
  cases h : findEntry c i with
  | none =>
    rw [stage_fresh c i t h]
    exact inv_append c i _ _ hinv h
  | some ent =>
    rw [Stage, h]
    simp only []
    split_ifs with h1 h2 h3 h4 h5
    · exact inv_filter c i hinv
    · exact hinv
    · exact inv_update c i _ (fun e => rfl) hinv
    · exact inv_update c i _ (fun e => rfl) hinv
    · exact inv_update c i _ (fun e => rfl) hinv
    · exact hinv

/-! ## Claim theorems: commit engine -/

/-- Claim C1: staging CHT_ADD and then CHT_REMOVE for the same item before
Push deletes the item's change record entirely: the ledger holds no record
for the item (GetStatus is back to the no-change sentinel), and Push performs
no model mutation and emits no notification for it. -/
theorem add_then_remove_cancels (c : COMMIT) (i : Nat) (h : findEntry c i = none) :
    findEntry (Stage (Stage c i CHT_ADD) i CHT_REMOVE) i = none ∧
    GetStatus (Stage (Stage c i CHT_ADD) i CHT_REMOVE) i = 0 ∧
    (∀ p ∈ pushMutations (Stage (Stage c i CHT_ADD) i CHT_REMOVE), p.1 ≠ i) ∧
    (∀ p ∈ pushNotifications (Stage (Stage c i CHT_ADD) i CHT_REMOVE), p.1 ≠ i) := by
  have h1 := stage_add_fresh c i h
  have hent : findEntry (Stage c i CHT_ADD) i =
      some { m_item := i, m_copy := none, m_type := CHT_ADD } := by
    rw [h1, findEntry]
    simp only []
    rw [List.find?_append]
    have h0 : c.m_changes.find? (fun e => e.m_item == i) = none := h
    rw [h0]
    simp
  have h2 := stage_add_remove (Stage c i CHT_ADD) i
    { m_item := i, m_copy := none, m_type := CHT_ADD } hent
    (show Nat.land CHT_ADD CHT_TYPE = CHT_ADD from by decide)
  have hall : ∀ e ∈ (Stage (Stage c i CHT_ADD) i CHT_REMOVE).m_changes,
      e.m_item ≠ i := by
    intro e he
    simp only [h2] at he
    have := List.of_mem_filter he
    simpa using this
  have hfind : findEntry (Stage (Stage c i CHT_ADD) i CHT_REMOVE) i = none := by
    rw [findEntry, List.find?_eq_none]
    intro x hx
    simpa using hall x hx
  refine ⟨hfind, ?_, ?_, ?_⟩
  · rw [GetStatus, hfind]
  · intro p hp
    rw [pushMutations] at hp
    rcases List.mem_map.mp hp with ⟨e, he, hpe⟩
    have := hall e (List.mem_of_mem_filter he)
    rw [← hpe]
    exact this
  · intro p hp
    rw [pushNotifications] at hp
    rcases List.mem_map.mp hp with ⟨e, he, hpe⟩
    have := hall e he
    rw [← hpe]
    exact this

theorem add_then_remove_cancels_witness :
    findEntry emptyCommit 3 = none ∧
    (findEntry (Stage (Stage emptyCommit 3 CHT_ADD) 3 CHT_REMOVE) 3 = none ∧
     GetStatus (Stage (Stage emptyCommit 3 CHT_ADD) 3 CHT_REMOVE) 3 = 0 ∧
     (∀ p ∈ pushMutations (Stage (Stage emptyCommit 3 CHT_ADD) 3 CHT_REMOVE), p.1 ≠ 3) ∧
     (∀ p ∈ pushNotifications (Stage (Stage emptyCommit 3 CHT_ADD) 3 CHT_REMOVE),
        p.1 ≠ 3)) :=
  ⟨rfl, add_then_remove_cancels emptyCommit 3 rfl⟩

/-- Claim C2: GetStatus returns 0 (the no-change sentinel) for every item
never staged in the current transaction, and for every staged item it returns
the merged CHANGE_TYPE bitmask of the item's single ledger record; findEntry
returns the not-found sentinel (none) exactly when the item is absent from
the ledger, rather than failing. -/
theorem getStatus_contract :
    (∀ (ops : List (Nat × Nat)) (i : Nat), (∀ p ∈ ops, p.1 ≠ i) →
        findEntry (runStages ops) i = none ∧ GetStatus (runStages ops) i = 0) ∧
    (∀ (c : COMMIT) (i : Nat) (e : COMMIT_LINE), findEntry c i = some e →
        GetStatus c i = e.m_type) ∧
    (∀ (c : COMMIT) (i : Nat), findEntry c i = none ↔ i ∉ ledgerKeys c) := by
  refine ⟨?_, ?_, findEntry_none_iff⟩
  · intro ops i h
    have hf : findEntry (runStages ops) i = findEntry emptyCommit i :=
      findEntry_runStages_other ops emptyCommit i h
    have hnone : findEntry (runStages ops) i = none := by rw [hf]; rfl
    exact ⟨hnone, by rw [GetStatus, hnone]⟩
  · intro c i e he
    rw [GetStatus, he]

theorem getStatus_contract_witness :
    (∀ p ∈ [((2 : Nat), (1 : Nat)), (7, 4)], p.1 ≠ 5) ∧
    (findEntry (runStages [(2, 1), (7, 4)]) 5 = none ∧
      GetStatus (runStages [(2, 1), (7, 4)]) 5 = 0) ∧
    GetStatus (Stage emptyCommit 1 CHT_ADD) 1 =
      (COMMIT_LINE.mk 1 none CHT_ADD).m_type := by
  refine ⟨by decide, getStatus_contract.1 [(2, 1), (7, 4)] 5 (by decide), ?_⟩
  exact getStatus_contract.2.1 (Stage emptyCommit 1 CHT_ADD) 1
    (COMMIT_LINE.mk 1 none CHT_ADD) (by decide)

/-- Claim C3: the Change Ledger invariant — at most one change record per
item identity, with the identity set `m_changedItems` and the ordered record
sequence `m_changes` in 1:1 correspondence by item identity — holds for a
fresh commit, is preserved by every Stage, and holds (with both containers
empty) after clear, and hence after Push and Revert, which clear the ledger. -/
theorem ledger_invariant :
    ledgerInv emptyCommit ∧
    (∀ (c : COMMIT) (i t : Nat), ledgerInv c → ledgerInv (Stage c i t)) ∧
    (∀ c : COMMIT, clear c = emptyCommit ∧ ledgerInv (clear c)) ∧
    (∀ c : COMMIT, (Push c).2.2 = emptyCommit ∧ ledgerInv (Push c).2.2) ∧
    (∀ c : COMMIT, Revert c = emptyCommit ∧ ledgerInv (Revert c)) :=
  ⟨inv_empty, fun c i t hinv => stage_preserves_inv c i t hinv,
   fun _ => ⟨rfl, inv_empty⟩, fun _ => ⟨rfl, inv_empty⟩, fun _ => ⟨rfl, inv_empty⟩⟩

theorem ledger_invariant_witness :
    ledgerInv (Stage emptyCommit 1 CHT_ADD) :=
  ledger_invariant.2.1 emptyCommit 1 CHT_ADD ledger_invariant.1

/-- Claim C4: the convenience methods are definitionally Stage with the
corresponding combined bitmask, returning the same (updated) engine, and the
CHANGE_TYPE operators compute bitwise OR/AND on the underlying integers, so
combined types such as ADD|DONE and REMOVE|DONE are representable and
decompose back into their kind and flag parts. -/
theorem convenience_methods :
    (∀ (c : COMMIT) (i : Nat),
        Add c i = Stage c i CHT_ADD ∧
        Added c i = Stage c i (chtOr CHT_ADD CHT_DONE) ∧
        Remove c i = Stage c i CHT_REMOVE ∧
        Removed c i = Stage c i (chtOr CHT_REMOVE CHT_DONE) ∧
        Modify c i = Stage c i CHT_MODIFY) ∧
    (∀ a b : Nat, chtOr a b = Nat.lor a b ∧ chtAnd a b = Nat.land a b) ∧
    chtOr CHT_ADD CHT_DONE = 9 ∧
    chtOr CHT_REMOVE CHT_DONE = 10 ∧
    chtAnd (chtOr CHT_ADD CHT_DONE) CHT_TYPE = CHT_ADD ∧
    chtAnd (chtOr CHT_ADD CHT_DONE) CHT_FLAGS = CHT_DONE ∧
    chtAnd (chtOr CHT_REMOVE CHT_DONE) CHT_TYPE = CHT_REMOVE ∧
    chtAnd (chtOr CHT_REMOVE CHT_DONE) CHT_FLAGS = CHT_DONE := by
  refine ⟨fun c i => ⟨rfl, rfl, rfl, rfl, rfl⟩, fun a b => ⟨rfl, rfl⟩,
    ?_, ?_, ?_, ?_, ?_, ?_⟩ <;> decide

end KiCad
